import Mathlib

/-!
Verification of `artha-position-checker`.

Shallow embedding of the two source files:
  * `src/app/api/auction/route.ts` — the auction API route: liquidatability
    check, floor-price read, debt calculation, GraphQL/NFT fetches, the
    aggregator `getAllLiquidatable`, and the `GET` handler.
  * `src/services/liquidation-service.ts` — `upsertLiquidations`, the
    Prisma-backed persistence layer keyed by `(addressIP, tokenId)`.

Modelling conventions:
  * JavaScript numbers (`borrowShares`, pool totals, prices) are modelled as
    rationals `ℚ`; the claims under verification only evaluate them at
    integer values, where JS arithmetic is exact.
  * Values that may be `undefined` in JS are `Option`; `x || ''` and
    `x || null` become explicit helpers below.
  * External effects (the two `readContract` calls, the two HTTP fetches, the
    database) are passed in explicitly: contract reads as a `ContractEnv` of
    fallible functions, fetches as already-received HTTP responses, the
    database as a list of rows threaded through the upsert.
  * A thrown JS exception is `Except.error` carrying a `JsError`; a non-Error
    thrown value would have `message = none`.
-/

deriving instance DecidableEq for Except

namespace Artha

/-- A thrown JS value; `message = some m` when it is an `Error` with message
`m` (`error instanceof Error`), `none` otherwise. -/
structure JsError where
  message : Option String
deriving DecidableEq

/-- `account { id }` nested record of a position. -/
structure Account where
  id : String
deriving DecidableEq

/-- The pool embedded in a position. Only the fields the source code reads
(`totalBorrowShares`, `totalBorrowAssets`, `oracle`, `loanAddress`) are
modelled; the remaining GraphQL fields are never consumed. -/
structure Pool where
  totalBorrowShares : ℚ
  totalBorrowAssets : ℚ
  oracle : String
  loanAddress : Option String
deriving DecidableEq

/-- A lending position as returned by the GraphQL indexer (`PositionSchema`).
Fields accessed with `?.` in the source are `Option`. -/
structure Position where
  id : Option String
  tokenId : Option String
  account : Option Account
  bidder : Option String
  borrowShares : ℚ
  pool : Pool
deriving DecidableEq

/-- The `contract` object of an Alchemy NFT record. -/
structure NftContract where
  address : String
  name : String
  symbol : String
deriving DecidableEq

/-- An Alchemy NFT metadata record (`AlchemyNftSchema`). The source uses the
placeholder `{} as AlchemyNftSchema` when no metadata matches, which has
every field `undefined`. -/
structure AlchemyNft where
  contract : Option NftContract
  tokenId : Option String
deriving DecidableEq

/-- The empty placeholder `{} as AlchemyNftSchema`. -/
def AlchemyNft.empty : AlchemyNft :=
  { contract := none, tokenId := none }

/-- `s.split(sep)` on the character list of a JS string: splitting an empty
string yields `[""]`, a leading/trailing separator yields empty segments. -/
def splitChars (sep : Char) : List Char → List (List Char)
  | [] => [[]]
  | c :: cs =>
    match splitChars sep cs with
    | [] => [[]]
    | h :: t => if c = sep then [] :: h :: t else (c :: h) :: t

/-- JS `String.prototype.split` with a single-character separator. -/
def jsSplit (s : String) (sep : Char) : List String :=
  (splitChars sep s.data).map (fun l => { data := l })

/-- Decimal digit value of a character, `none` for non-digits. -/
def decDigit? (c : Char) : Option Nat :=
  if '0' ≤ c ∧ c ≤ '9' then some (c.toNat - '0'.toNat) else none

/-- Accumulate a decimal natural from a character list; `none` on the first
non-digit. -/
def parseNatAux : List Char → Nat → Option Nat
  | [], acc => some acc
  | c :: cs, acc =>
    match decDigit? c with
    | some d => parseNatAux cs (acc * 10 + d)
    | none => none

/-- Parse an optionally-signed decimal integer from a nonempty character
list, as JS `StringToBigInt` does for decimal literals. -/
def parseIntChars : List Char → Option Int
  | [] => none
  | '-' :: cs =>
    if cs = [] then none else (parseNatAux cs 0).map (fun n => -(n : Int))
  | '+' :: cs =>
    if cs = [] then none else (parseNatAux cs 0).map (fun n => (n : Int))
  | cs => (parseNatAux cs 0).map (fun n => (n : Int))

/-- Strip leading and trailing whitespace from a character list. -/
def trimChars (l : List Char) : List Char :=
  ((l.dropWhile Char.isWhitespace).reverse.dropWhile Char.isWhitespace).reverse

/-- JS `BigInt(x)` on a possibly-`undefined` string: `undefined` throws a
`TypeError`; a whitespace-only string is `0n`; a decimal integer string
converts; anything else throws a `SyntaxError`. (Hex/octal/binary prefixes,
unused by this codebase, are not modelled.) -/
def jsBigInt : Option String → Except JsError Int
  | none => .error { message := some "Cannot convert undefined to a BigInt" }
  | some s =>
    let t := trimChars s.data
    if t = [] then .ok 0
    else
      match parseIntChars t with
      | some n => .ok n
      | none => .error { message := some ("Cannot convert " ++ s ++ " to a BigInt") }

/-- JS `x || ''` for `x : string | undefined` (the empty string is falsy and
maps to `''` either way). -/
def jsOrEmpty : Option String → String
  | some s => s
  | none => ""

/-- JS `x || null` for `x : string | null | undefined`. -/
def jsOrNull : Option String → Option String
  | some s => if s = "" then none else some s
  | none => none

/-- JS `s || d` for two plain strings (only `''` is falsy). -/
def jsStrOr (s d : String) : String :=
  if s = "" then d else s

/-- JS `Number.prototype.toString` / template rendering of a numeric value,
with no locale formatting. Exact for integer-valued numbers, which are the
only values the verified claims evaluate it at. -/
def numToString (q : ℚ) : String :=
  if q.den = 1 then toString q.num else toString q

/-- The two read-only contract views the route calls through the `viem`
client: `unhealthyList(poolId, tokenId)` on the Artha pool factory and
`getPrice(tokenId)` on the per-pool oracle. Either call may throw. The
`poolId` argument is the possibly-`undefined` first segment of the position
id. -/
structure ContractEnv where
  unhealthyList : Option String → Int → Except JsError Bool
  getPrice : String → Int → Except JsError Int

/-- `(position?.id?.split('-') ?? [])`: the segments of the position id, or
`[]` when the id is `undefined`. -/
def checkParts (position : Position) : List String :=
  match position.id with
  | some s => jsSplit s '-'
  | none => []

/-- `checkLiquidatableStatus` from `route.ts`: split `position.id` on `'-'`,
convert the second segment with `BigInt`, call `unhealthyList`; any throw
inside the `try` (including the `BigInt` conversion) is caught, logged and
turned into `false`. -/
def checkLiquidatableStatus (env : ContractEnv) (position : Position) : Bool :=
  match jsBigInt (checkParts position)[1]? with
  | .error _ => false
  | .ok tokenId =>
    match env.unhealthyList (checkParts position)[0]? tokenId with
    | .error _ => false
    | .ok b => b

/-- `fetchFloorPrice` from `route.ts`: read `getPrice` from the oracle,
coerce the bigint to a number; any throw is caught and becomes `0`. -/
def fetchFloorPrice (env : ContractEnv) (oracleAddress : String) (tokenId : Int) : ℚ :=
  match env.getPrice oracleAddress tokenId with
  | .ok price => (price : ℚ)
  | .error _ => 0

/-- `calculateDebt` from `route.ts`:
`(borrowShares / pool.totalBorrowShares * pool.totalBorrowAssets).toString()`. -/
def calculateDebt (position : Position) : String :=
  numToString (position.borrowShares / position.pool.totalBorrowShares *
    position.pool.totalBorrowAssets)

/-- The HTTP response received by `fetchGraphQLPositions`: `ok`/`status` from
the transport, `positions = some ps` when the body parses as JSON with a
`data.positions` array, `none` when parsing or field access would throw. -/
structure GraphResponse where
  ok : Bool
  status : Nat
  positions : Option (List Position)

/-- `fetchGraphQLPositions` from `route.ts`: throws
`GraphQL request failed with status N` on a non-ok response, otherwise
returns `responseData.data.positions`; its `catch` only logs and rethrows. -/
def fetchGraphQLPositions (resp : GraphResponse) : Except JsError (List Position) :=
  if resp.ok then
    match resp.positions with
    | some ps => .ok ps
    | none => .error { message := some "Cannot read properties of undefined" }
  else
    .error { message := some ("GraphQL request failed with status " ++ toString resp.status) }

/-- The HTTP response received by `fetchNFTData`: `ownedNfts = some l` when
the body parses as `{ ownedNfts: l }`. -/
structure NftResponse where
  ok : Bool
  status : Nat
  ownedNfts : Option (List AlchemyNft)

/-- `fetchNFTData` from `route.ts`: throws
`NFT data fetch failed with status N` on a non-ok response, otherwise returns
the parsed body; its `catch` only logs and rethrows. -/
def fetchNFTData (resp : NftResponse) : Except JsError (List AlchemyNft) :=
  if resp.ok then
    match resp.ownedNfts with
    | some nfts => .ok nfts
    | none => .error { message := some "invalid json body" }
  else
    .error { message := some ("NFT data fetch failed with status " ++ toString resp.status) }

/-- A record pushed onto `result` by `getAllLiquidatable` (`AuctionApiSchema`). -/
structure AuctionRecord where
  nftData : AlchemyNft
  isLiquidatableStatus : Bool
  position : Position
  floorPrice : String
  debt : String
deriving DecidableEq

/-- The `for (const position of positions)` loop body of `getAllLiquidatable`:
check liquidatability; when `true`, convert `position.tokenId` with `BigInt`
(a throw here is not caught locally and aborts the aggregation), fetch the
floor price, join the first NFT record with `nft.tokenId === position.tokenId`
(the `{}` placeholder when none matches) and append the result record. -/
def liquidatableLoop (env : ContractEnv) (nfts : List AlchemyNft) :
    List Position → List AuctionRecord → Except JsError (List AuctionRecord)
  | [], acc => .ok acc
  | position :: rest, acc =>
    if checkLiquidatableStatus env position then
      match jsBigInt position.tokenId with
      | .error e => .error e
      | .ok tid =>
        let price := fetchFloorPrice env position.pool.oracle tid
        let nftArteData :=
          (nfts.find? (fun nft => decide (nft.tokenId = position.tokenId))).getD
            AlchemyNft.empty
        liquidatableLoop env nfts rest
          (acc ++ [{ nftData := nftArteData, isLiquidatableStatus := true,
                     position := position, floorPrice := numToString price,
                     debt := calculateDebt position }])
    else
      liquidatableLoop env nfts rest acc

/-- `getAllLiquidatable` from `route.ts`: fetch positions, fetch NFT data,
then run the per-position loop; its `catch` only logs and rethrows, so every
failure propagates. -/
def getAllLiquidatable (env : ContractEnv) (graphResp : GraphResponse)
    (nftResp : NftResponse) : Except JsError (List AuctionRecord) :=
  match fetchGraphQLPositions graphResp with
  | .error e => .error e
  | .ok positions =>
    match fetchNFTData nftResp with
    | .error e => .error e
    | .ok nfts => liquidatableLoop env nfts positions []

/-- A row of the Prisma `liquidation` table, unique on
`(addressIP, tokenId)`. -/
structure LiquidationRow where
  addressIP : String
  nftName : String
  nftSymbol : String
  tokenId : String
  isLiquidatableStatus : Bool
  positionAccount : String
  loanAddress : String
  floorPrice : String
  debt : String
  bidder : Option String
deriving DecidableEq

/-- `liquidation.nftData?.contract?.address || ''` — the `addressIP` key
component. -/
def nftAddress (liq : AuctionRecord) : String :=
  match liq.nftData.contract with
  | some c => c.address
  | none => ""

/-- `liquidation.position.tokenId || ''` — the `tokenId` key component. -/
def posTokenId (liq : AuctionRecord) : String :=
  jsOrEmpty liq.position.tokenId

/-- The `addressIP_tokenId` compound key the upsert targets. -/
def recordKey (liq : AuctionRecord) : String × String :=
  (nftAddress liq, posTokenId liq)

/-- The `create` payload of the upsert in `upsertLiquidations`. -/
def createRow (liq : AuctionRecord) : LiquidationRow :=
  { addressIP := nftAddress liq
    nftName := (match liq.nftData.contract with | some c => c.name | none => "")
    nftSymbol := (match liq.nftData.contract with | some c => c.symbol | none => "")
    tokenId := posTokenId liq
    isLiquidatableStatus := liq.isLiquidatableStatus
    positionAccount := jsOrEmpty (liq.position.account.map Account.id)
    loanAddress := jsOrEmpty liq.position.pool.loanAddress
    floorPrice := jsStrOr liq.floorPrice "0"
    debt := jsStrOr liq.debt "0"
    bidder := jsOrNull liq.position.bidder }

/-- The `update` payload applied to an existing row: every non-key field is
overwritten with the same expressions as `create`; the key columns
`addressIP` and `tokenId` are untouched. -/
def applyUpdate (row : LiquidationRow) (liq : AuctionRecord) : LiquidationRow :=
  { createRow liq with addressIP := row.addressIP, tokenId := row.tokenId }

/-- The compound key of a stored row. -/
def rowKey (r : LiquidationRow) : String × String :=
  (r.addressIP, r.tokenId)

/-- Does a stored row carry key `k`? -/
def matchKey (k : String × String) (r : LiquidationRow) : Bool :=
  decide (rowKey r = k)

/-- `prisma.liquidation.upsert` for one record: update the row whose unique
key equals `recordKey liq` when it exists, insert `createRow liq` otherwise. -/
def upsertOne (db : List LiquidationRow) (liq : AuctionRecord) : List LiquidationRow :=
  if db.any (matchKey (recordKey liq)) then
    db.map (fun r => if rowKey r = recordKey liq then applyUpdate r liq else r)
  else
    db ++ [createRow liq]

/-- `upsertLiquidations` from `liquidation-service.ts`: one upsert per record
(the source fires them through `Promise.all`; each is an independent
transaction, modelled here as applied in sequence). -/
def upsertLiquidations (db : List LiquidationRow) (liqs : List AuctionRecord) :
    List LiquidationRow :=
  liqs.foldl upsertOne db

/-- Database lookup by unique key. -/
def findRow (db : List LiquidationRow) (k : String × String) : Option LiquidationRow :=
  db.find? (matchKey k)

/-- Number of stored rows carrying key `k`. -/
def countKey (db : List LiquidationRow) (k : String × String) : Nat :=
  db.countP (matchKey k)

/-- The database's unique constraint on `(addressIP, tokenId)`: no two rows
share a key. -/
def KeyUnique (db : List LiquidationRow) : Prop :=
  db.Pairwise (fun a b => rowKey a ≠ rowKey b)

/-- The JSON response of the `GET` handler: `NextResponse.json(body, status)`. -/
inductive ApiBody where
  | success (records : List AuctionRecord)
  | failure (err : String) (details : String)
deriving DecidableEq

/-- Status code plus JSON body. -/
structure ApiResult where
  status : Nat
  body : ApiBody
deriving DecidableEq

/-- Everything observable about one `GET` invocation: the HTTP response, the
database contents afterwards, and the argument `upsertLiquidations` was
invoked with (`none` when it was never invoked). -/
structure GetOutcome where
  response : ApiResult
  db : List LiquidationRow
  persisted : Option (List AuctionRecord)
deriving DecidableEq

/-- The `GET` handler from `route.ts`: aggregate, persist, respond 200 with
the result list; any thrown error becomes a 500 with
`{ error: 'Failed to fetch positions', details }` where `details` is the
error's message when it is an `Error`, `'Unknown error'` otherwise. -/
def GET (env : ContractEnv) (graphResp : GraphResponse) (nftResp : NftResponse)
    (db : List LiquidationRow) : GetOutcome :=
  match getAllLiquidatable env graphResp nftResp with
  | .ok result =>
    { response := { status := 200, body := .success result }
      db := upsertLiquidations db result
      persisted := some result }
  | .error e =>
    { response := { status := 500,
                    body := .failure "Failed to fetch positions" (e.message.getD "Unknown error") }
      db := db
      persisted := none }

/-! ### Concrete scenario (spec section 8, end-to-end example)

One GraphQL position with id `"0xabc-7"`, `borrowShares = 50`,
`pool.totalBorrowShares = 100`, `pool.totalBorrowAssets = 1000`; the
liquidatability check returns `true` and the oracle returns `250`; one NFT
metadata record with token id `"7"`. -/

/-- Contract environment of the scenario: `unhealthyList` answers `true`,
`getPrice` answers `250`. -/
def envS : ContractEnv :=
  { unhealthyList := fun _ _ => .ok true
    getPrice := fun _ _ => .ok 250 }

/-- Pool of the scenario position. -/
def poolS : Pool :=
  { totalBorrowShares := 100
    totalBorrowAssets := 1000
    oracle := "0xoracle"
    loanAddress := some "0xloan" }

/-- The scenario position, id `"0xabc-7"`. -/
def positionS : Position :=
  { id := some "0xabc-7"
    tokenId := some "7"
    account := some { id := "0xowner" }
    bidder := none
    borrowShares := 50
    pool := poolS }

/-- The scenario NFT metadata record, token id `"7"`. -/
def nftS : AlchemyNft :=
  { contract := some { address := "0xNFT", name := "Artha IP", symbol := "AIP" }
    tokenId := some "7" }

/-- Successful GraphQL response carrying the one scenario position. -/
def gS : GraphResponse :=
  { ok := true, status := 200, positions := some [positionS] }

/-- Successful NFT-proxy response carrying the one scenario record. -/
def nS : NftResponse :=
  { ok := true, status := 200, ownedNfts := some [nftS] }

/-- The result record the aggregator produces in the scenario. -/
def recS : AuctionRecord :=
  { nftData := nftS
    isLiquidatableStatus := true
    position := positionS
    floorPrice := "250"
    debt := "500" }

/-- Evaluating the aggregator on the concrete scenario yields exactly the
one expected record. -/
theorem scenario_agg : getAllLiquidatable envS gS nS = .ok [recS] := by
  have hdebt : calculateDebt positionS = "500" := by
    have hq : positionS.borrowShares / positionS.pool.totalBorrowShares *
        positionS.pool.totalBorrowAssets = 500 := by
      norm_num [positionS, poolS]
    simp only [calculateDebt, hq]
    decide
  have h1 : fetchGraphQLPositions gS = .ok [positionS] := by decide
  have h2 : fetchNFTData nS = .ok [nftS] := by decide
  have hcheck : checkLiquidatableStatus envS positionS = true := by decide
  have hbig : jsBigInt positionS.tokenId = .ok 7 := by decide
  simp only [getAllLiquidatable, h1, h2, liquidatableLoop, hcheck, hbig, if_true, hdebt]
  decide

/-! ### Helper lemmas -/

/-- Splitting a character list that does not contain the separator yields the
single segment equal to the whole list. -/
theorem splitChars_of_not_mem (sep : Char) (l : List Char) (h : sep ∉ l) :
    splitChars sep l = [l] := by
  induction l with
  | nil => rfl
  | cons c cs ih =>
    have hc : ¬ c = sep := fun hh => h (hh ▸ List.mem_cons_self c cs)
    have hcs : sep ∉ cs := fun hh => h (List.mem_cons_of_mem c hh)
    simp [splitChars, ih hcs, hc]

/-- The `update` branch never touches the key columns. -/
theorem rowKey_applyUpdate (r : LiquidationRow) (liq : AuctionRecord) :
    rowKey (applyUpdate r liq) = rowKey r := rfl

/-- A freshly created row carries the record's compound key. -/
theorem rowKey_createRow (liq : AuctionRecord) :
    rowKey (createRow liq) = recordKey liq := rfl

/-- Updating a row that already carries the record's key writes exactly the
fields a fresh insert of the record would: `update` and `create` list the
same value expressions for every non-key column. -/
theorem applyUpdate_eq_createRow (r : LiquidationRow) (liq : AuctionRecord)
    (h : rowKey r = recordKey liq) : applyUpdate r liq = createRow liq := by
  have ha : r.addressIP = nftAddress liq := congrArg Prod.fst h
  have ht : r.tokenId = posTokenId liq := congrArg Prod.snd h
  unfold applyUpdate
  rw [ha, ht]
  rfl

/-- The positions of the records accumulated by the aggregation loop are the
already-accumulated ones followed by the liquidatable ones of the remaining
input, in fetch order. -/
theorem liquidatableLoop_map_position (env : ContractEnv) (nfts : List AlchemyNft)
    (ps : List Position) : ∀ (acc res : List AuctionRecord),
    liquidatableLoop env nfts ps acc = .ok res →
    res.map AuctionRecord.position =
      acc.map AuctionRecord.position ++
        ps.filter (fun p => checkLiquidatableStatus env p) := by
  induction ps with
  | nil =>
    intro acc res h
    simp only [liquidatableLoop, Except.ok.injEq] at h
    simp [h]
  | cons p rest ih =>
    intro acc res h
    by_cases hc : checkLiquidatableStatus env p = true
    · simp only [liquidatableLoop, hc, if_true] at h
      cases hbig : jsBigInt p.tokenId with
      | error e => simp [hbig] at h
      | ok tid =>
        simp only [hbig] at h
        have hrec := ih _ res h
        simp only [hrec, List.map_append, List.filter_cons, hc]
        simp
    · have hc' : checkLiquidatableStatus env p = false := by
        simpa using hc
      simp only [liquidatableLoop, hc', Bool.false_eq_true, if_false] at h
      simp [ih acc res h, List.filter_cons, hc']

/-- Every record accumulated by the aggregation loop joins its NFT metadata
through `find?` on token-id equality against its own position. -/
theorem liquidatableLoop_nftData (env : ContractEnv) (nfts : List AlchemyNft)
    (ps : List Position) : ∀ (acc res : List AuctionRecord),
    liquidatableLoop env nfts ps acc = .ok res →
    (∀ r ∈ acc, r.nftData =
      (nfts.find? (fun nft => decide (nft.tokenId = r.position.tokenId))).getD
        AlchemyNft.empty) →
    ∀ r ∈ res, r.nftData =
      (nfts.find? (fun nft => decide (nft.tokenId = r.position.tokenId))).getD
        AlchemyNft.empty := by
  induction ps with
  | nil =>
    intro acc res h hacc
    simp only [liquidatableLoop, Except.ok.injEq] at h
    exact h ▸ hacc
  | cons p rest ih =>
    intro acc res h hacc
    by_cases hc : checkLiquidatableStatus env p = true
    · simp only [liquidatableLoop, hc, if_true] at h
      cases hbig : jsBigInt p.tokenId with
      | error e => simp [hbig] at h
      | ok tid =>
        simp only [hbig] at h
        refine ih _ res h ?_
        intro r hr
        rcases List.mem_append.mp hr with hr | hr
        · exact hacc r hr
        · obtain rfl := List.mem_singleton.mp hr
          rfl
    · have hc' : checkLiquidatableStatus env p = false := by
        simpa using hc
      simp only [liquidatableLoop, hc', Bool.false_eq_true, if_false] at h
      exact ih acc res h hacc

/-- `find?` returns the first match: the list splits into a prefix of
non-matches, the found element, and a suffix. -/
theorem find?_eq_some_split {α : Type} (p : α → Bool) (l : List α) (a : α)
    (h : l.find? p = some a) :
    ∃ pre post, l = pre ++ a :: post ∧ p a = true ∧ ∀ x ∈ pre, p x = false := by
  induction l with
  | nil => cases h
  | cons b bs ih =>
    cases hb : p b with
    | true =>
      rw [List.find?_cons_of_pos _ hb] at h
      obtain rfl := Option.some.inj h
      exact ⟨[], bs, rfl, hb, by simp⟩
    | false =>
      rw [List.find?_cons_of_neg _ (by simp [hb])] at h
      obtain ⟨pre, post, heq, hpa, hpre⟩ := ih h
      refine ⟨b :: pre, post, by simp [heq], hpa, ?_⟩
      intro x hx
      rcases List.mem_cons.mp hx with rfl | hx
      · exact hb
      · exact hpre x hx

/-- `matchKey` decides key equality. -/
theorem matchKey_eq_true {k : String × String} {r : LiquidationRow} :
    matchKey k r = true ↔ rowKey r = k := by
  simp [matchKey]

/-- The per-row function of the update branch preserves every row's key. -/
theorem rowKey_updateFun (liq : AuctionRecord) (r : LiquidationRow) :
    rowKey (if rowKey r = recordKey liq then applyUpdate r liq else r) = rowKey r := by
  by_cases h : rowKey r = recordKey liq <;> simp [h, rowKey_applyUpdate]

/-- Key matching is invariant under the update branch's per-row function. -/
theorem matchKey_comp_update (liq : AuctionRecord) (k : String × String) :
    (matchKey k ∘ fun r => if rowKey r = recordKey liq then applyUpdate r liq else r) =
      matchKey k := by
  funext r
  simp [Function.comp, matchKey, rowKey_updateFun]

/-- After one upsert, looking up the record's key finds exactly the row the
record writes (update and insert agree on it), and every other key is
untouched. -/
theorem findRow_upsertOne (db : List LiquidationRow) (liq : AuctionRecord)
    (k : String × String) :
    findRow (upsertOne db liq) k =
      if k = recordKey liq then some (createRow liq) else findRow db k := by
  unfold upsertOne
  cases hany : db.any (matchKey (recordKey liq)) with
  | false =>
    simp only [hany, Bool.false_eq_true, if_false]
    rw [findRow, List.find?_append]
    by_cases hk : k = recordKey liq
    · subst hk
      have h0 : db.find? (matchKey (recordKey liq)) = none := by
        rw [List.find?_eq_none]
        exact List.any_eq_false.mp hany
      have h1 : List.find? (matchKey (recordKey liq)) [createRow liq] =
          some (createRow liq) := by
        apply List.find?_cons_of_pos
        exact matchKey_eq_true.mpr (rowKey_createRow liq)
      simp [findRow, h0, h1]
    · have h1 : List.find? (matchKey k) [createRow liq] = none := by
        rw [List.find?_eq_none]
        intro x hx
        obtain rfl := List.mem_singleton.mp hx
        intro hm
        exact hk ((matchKey_eq_true.mp hm ▸ rowKey_createRow liq).symm ▸ rfl)
      simp [findRow, h1, hk]
  | true =>
    simp only [hany, if_true]
    rw [findRow, List.find?_map, matchKey_comp_update]
    by_cases hk : k = recordKey liq
    · subst hk
      have hsome : (db.find? (matchKey (recordKey liq))).isSome := by
        rw [List.find?_isSome]
        obtain ⟨x, hx, hpx⟩ := List.any_eq_true.mp hany
        exact ⟨x, hx, hpx⟩
      obtain ⟨r0, hr0⟩ := Option.isSome_iff_exists.mp hsome
      have hkey0 : rowKey r0 = recordKey liq :=
        matchKey_eq_true.mp (List.find?_some hr0)
      simp [hr0, hkey0, applyUpdate_eq_createRow r0 liq hkey0]
    · cases hf : db.find? (matchKey k) with
      | none => simp [findRow, hf, hk]
      | some r0 =>
        have hkey0 : rowKey r0 = k := matchKey_eq_true.mp (List.find?_some hf)
        have hne : ¬ rowKey r0 = recordKey liq := by
          rw [hkey0]
          exact hk
        simp [findRow, hf, hk, hne]

/-- Under the unique-key constraint a key occurs in at most one row. -/
theorem countKey_le_one (db : List LiquidationRow) (h : KeyUnique db)
    (k : String × String) : countKey db k ≤ 1 := by
  induction db with
  | nil => simp [countKey]
  | cons r rest ih =>
    obtain ⟨hr, hrest⟩ := List.pairwise_cons.mp h
    rw [countKey, List.countP_cons]
    by_cases hm : matchKey k r = true
    · have hk : rowKey r = k := matchKey_eq_true.mp hm
      have h0 : rest.countP (matchKey k) = 0 := by
        rw [List.countP_eq_zero]
        intro b hb hmb
        exact hr b hb (hk.trans (matchKey_eq_true.mp hmb).symm)
      simp [hm, h0]
    · have := ih hrest
      rw [countKey] at this
      simp [hm]
      omega

/-- One upsert preserves the unique-key constraint. -/
theorem keyUnique_upsertOne (db : List LiquidationRow) (liq : AuctionRecord)
    (h : KeyUnique db) : KeyUnique (upsertOne db liq) := by
  unfold upsertOne
  cases hany : db.any (matchKey (recordKey liq)) with
  | true =>
    simp only [hany, if_true]
    rw [KeyUnique, List.pairwise_map]
    refine h.imp ?_
    intro a b hab
    simpa [rowKey_updateFun] using hab
  | false =>
    simp only [hany, Bool.false_eq_true, if_false]
    rw [KeyUnique, List.pairwise_append]
    refine ⟨h, List.pairwise_singleton _ _, ?_⟩
    intro a ha b hb
    obtain rfl := List.mem_singleton.mp hb
    rw [rowKey_createRow]
    intro heq
    exact List.any_eq_false.mp hany a ha (matchKey_eq_true.mpr heq)

/-- A whole batch of upserts preserves the unique-key constraint. -/
theorem keyUnique_upsertLiquidations (db : List LiquidationRow)
    (liqs : List AuctionRecord) (h : KeyUnique db) :
    KeyUnique (upsertLiquidations db liqs) := by
  induction liqs generalizing db with
  | nil => exact h
  | cons l rest ih => exact ih (upsertOne db l) (keyUnique_upsertOne db l h)

/-- After a batch of upserts, looking up a key finds the row written by the
last record in the batch carrying that key, and keys not touched by the
batch read as before. -/
theorem findRow_upsertLiquidations (liqs : List AuctionRecord)
    (db : List LiquidationRow) (k : String × String) :
    findRow (upsertLiquidations db liqs) k =
      match liqs.reverse.find? (fun l => decide (recordKey l = k)) with
      | some last => some (createRow last)
      | none => findRow db k := by
  induction liqs generalizing db with
  | nil => simp [upsertLiquidations]
  | cons l rest ih =>
    have hstep : upsertLiquidations db (l :: rest) =
        upsertLiquidations (upsertOne db l) rest := rfl
    rw [hstep, ih, List.reverse_cons, List.find?_append]
    cases hr : rest.reverse.find? (fun l => decide (recordKey l = k)) with
    | some last => simp
    | none =>
      rw [findRow_upsertOne]
      by_cases hk : recordKey l = k
      · have h1 : List.find? (fun l => decide (recordKey l = k)) [l] = some l :=
          List.find?_cons_of_pos _ (by simp [hk])
        simp [h1, hk.symm]
      · have h1 : List.find? (fun l => decide (recordKey l = k)) [l] = none := by
          rw [List.find?_eq_none]
          intro x hx
          obtain rfl := List.mem_singleton.mp hx
          simp [hk]
        have hk' : ¬ k = recordKey l := fun hh => hk hh.symm
        simp [h1, hk']

/-- An upsert leaves the row count of every other key unchanged. -/
theorem countKey_upsertOne_other (db : List LiquidationRow) (liq : AuctionRecord)
    (k : String × String) (hk : k ≠ recordKey liq) :
    countKey (upsertOne db liq) k = countKey db k := by
  unfold upsertOne
  cases hany : db.any (matchKey (recordKey liq)) with
  | true =>
    simp only [hany, if_true]
    rw [countKey, List.countP_map, matchKey_comp_update]
    rfl
  | false =>
    simp only [hany, Bool.false_eq_true, if_false]
    rw [countKey, List.countP_append]
    have h1 : List.countP (matchKey k) [createRow liq] = 0 := by
      rw [List.countP_eq_zero]
      intro x hx
      obtain rfl := List.mem_singleton.mp hx
      intro hm
      exact hk ((matchKey_eq_true.mp hm).symm.trans (rowKey_createRow liq))
    rw [h1]
    rfl

/-- After upserting a record into a constraint-satisfying table, its key
occurs in exactly one row (the prior row was updated, or one was created). -/
theorem countKey_upsertOne_self (db : List LiquidationRow) (liq : AuctionRecord)
    (hle : countKey db (recordKey liq) ≤ 1) :
    countKey (upsertOne db liq) (recordKey liq) = 1 := by
  unfold upsertOne
  cases hany : db.any (matchKey (recordKey liq)) with
  | true =>
    simp only [hany, if_true]
    rw [countKey, List.countP_map, matchKey_comp_update]
    have hpos : 0 < db.countP (matchKey (recordKey liq)) := by
      rw [List.countP_pos_iff]
      obtain ⟨x, hx, hpx⟩ := List.any_eq_true.mp hany
      exact ⟨x, hx, hpx⟩
    rw [countKey] at hle
    omega
  | false =>
    simp only [hany, Bool.false_eq_true, if_false]
    rw [countKey, List.countP_append]
    have h0 : db.countP (matchKey (recordKey liq)) = 0 := by
      rw [List.countP_eq_zero]
      exact List.any_eq_false.mp hany
    have h1 : List.countP (matchKey (recordKey liq)) [createRow liq] = 1 := by
      rw [List.countP_cons]
      simp [matchKey_eq_true.mpr (rowKey_createRow liq)]
    rw [h0, h1]

/-- A batch touching none of a key's records leaves its row count alone. -/
theorem countKey_upsert_not_mem (liqs : List AuctionRecord)
    (db : List LiquidationRow) (k : String × String)
    (hk : ∀ l ∈ liqs, recordKey l ≠ k) :
    countKey (upsertLiquidations db liqs) k = countKey db k := by
  induction liqs generalizing db with
  | nil => rfl
  | cons l rest ih =>
    have hstep : upsertLiquidations db (l :: rest) =
        upsertLiquidations (upsertOne db l) rest := rfl
    rw [hstep, ih (upsertOne db l) (fun x hx => hk x (List.mem_cons_of_mem l hx))]
    exact countKey_upsertOne_other db l k
      (fun hh => hk l (List.mem_cons_self l rest) hh.symm)

/-- After upserting a batch into a constraint-satisfying table, the key of
any record of the batch occurs in exactly one row. -/
theorem countKey_upsert_mem (liqs : List AuctionRecord)
    (db : List LiquidationRow) (k : String × String) (h : KeyUnique db)
    (hk : ∃ l ∈ liqs, recordKey l = k) :
    countKey (upsertLiquidations db liqs) k = 1 := by
  induction liqs generalizing db with
  | nil =>
    obtain ⟨x, hx, _⟩ := hk
    exact absurd hx (List.not_mem_nil x)
  | cons l rest ih =>
    have hstep : upsertLiquidations db (l :: rest) =
        upsertLiquidations (upsertOne db l) rest := rfl
    by_cases hrest : ∃ x ∈ rest, recordKey x = k
    · rw [hstep]
      exact ih (upsertOne db l) (keyUnique_upsertOne db l h) hrest
    · obtain ⟨x, hx, hxk⟩ := hk
      rcases List.mem_cons.mp hx with rfl | hx2
      · have hnot : ∀ y ∈ rest, recordKey y ≠ k := by
          intro y hy hyk
          exact hrest ⟨y, hy, hyk⟩
        rw [hstep, countKey_upsert_not_mem rest _ k hnot, ← hxk]
        exact countKey_upsertOne_self db x (countKey_le_one db h _)
      · exact absurd ⟨x, hx2, hxk⟩ hrest

/-- An environment whose two contract reads always throw. -/
def envErr : ContractEnv :=
  { unhealthyList := fun _ _ => .error { message := some "execution reverted" }
    getPrice := fun _ _ => .error { message := some "execution reverted" } }

/-- The scenario position with its id `undefined`. -/
def pNone : Position := { positionS with id := none }

/-- A GraphQL transport answer with HTTP status 503. -/
def g503 : GraphResponse := { ok := false, status := 503, positions := none }

/-! ### Claims -/

/-- C2: for every position `P`, `calculateDebt P` is exactly the decimal
rendering — `Number.prototype.toString`, no locale formatting — of
`(P.borrowShares / P.pool.totalBorrowShares) * P.pool.totalBorrowAssets`. -/
theorem calculateDebt_matches_formula (p : Position) :
    calculateDebt p =
      numToString (p.borrowShares / p.pool.totalBorrowShares *
        p.pool.totalBorrowAssets) := rfl

/-- C3: whenever the underlying `unhealthyList` contract read throws (for any
position and any thrown error), `checkLiquidatableStatus` returns `false`;
it never propagates the error (it is a total `Bool`-valued function in this
model, mirroring the source's catch-all `try`). -/
theorem check_swallows_contract_errors (env : ContractEnv) (p : Position)
    (h : ∀ pid tid b, env.unhealthyList pid tid ≠ Except.ok b) :
    checkLiquidatableStatus env p = false := by
  cases hbig : jsBigInt (checkParts p)[1]? with
  | error e =>
    unfold checkLiquidatableStatus
    simp only [hbig]
  | ok tid =>
    cases hcall : env.unhealthyList (checkParts p)[0]? tid with
    | error e =>
      unfold checkLiquidatableStatus
      simp only [hbig, hcall]
    | ok b => exact absurd hcall (h _ _ b)

/-- Witness for C3 at a concrete position and an always-throwing contract. -/
theorem check_swallows_contract_errors_witness :
    checkLiquidatableStatus envErr positionS = false :=
  check_swallows_contract_errors envErr positionS
    (fun pid tid b hb => by simp [envErr] at hb)

/-- C4: whenever the underlying `getPrice` contract read throws (for any
oracle address, token id and thrown error), `fetchFloorPrice` returns `0`;
it never propagates the error (total function in this model, mirroring the
source's catch-all `try`). -/
theorem fetchFloorPrice_swallows_errors (env : ContractEnv) (addr : String)
    (tid : Int) (e : JsError) (h : env.getPrice addr tid = .error e) :
    fetchFloorPrice env addr tid = 0 := by
  unfold fetchFloorPrice
  rw [h]

/-- Witness for C4 at a concrete oracle address and token id. -/
theorem fetchFloorPrice_swallows_errors_witness :
    fetchFloorPrice envErr "0xoracle" 7 = 0 :=
  fetchFloorPrice_swallows_errors envErr "0xoracle" 7
    { message := some "execution reverted" } rfl

/-- C9: when the position id is `undefined` or contains no `'-'` separator,
the split yields no second segment, the `BigInt` conversion of `undefined`
throws inside the `try`, and `checkLiquidatableStatus` returns `false`
instead of throwing. -/
theorem malformed_id_returns_false (env : ContractEnv) (p : Position)
    (h : p.id = none ∨ ∃ s, p.id = some s ∧ '-' ∉ s.data) :
    checkLiquidatableStatus env p = false := by
  have hparts : (checkParts p)[1]? = none := by
    rcases h with h | ⟨s, hs, hmem⟩
    · simp [checkParts, h]
    · have hsp : checkParts p = [⟨s.data⟩] := by
        simp [checkParts, hs, jsSplit, splitChars_of_not_mem _ _ hmem]
      rw [hsp]
      rfl
  unfold checkLiquidatableStatus
  rw [hparts]
  rfl

/-- Witness for C9: a position with an `undefined` id. -/
theorem malformed_id_returns_false_witness :
    checkLiquidatableStatus envS pNone = false :=
  malformed_id_returns_false envS pNone (Or.inl rfl)

/-- C10: a result record whose `nftData` is the empty placeholder gets the
empty string as the `addressIP` key component, so two such records with
equal `position.tokenId` share a compound key and target the same stored
row: upserting both into an empty table leaves one row, holding the second
record's values. -/
theorem empty_nft_same_row (l1 l2 : AuctionRecord)
    (h1 : l1.nftData = AlchemyNft.empty) (h2 : l2.nftData = AlchemyNft.empty)
    (ht : l1.position.tokenId = l2.position.tokenId) :
    (recordKey l1).1 = "" ∧ recordKey l1 = recordKey l2 ∧
    upsertLiquidations [] [l1, l2] = [createRow l2] := by
  have ha1 : nftAddress l1 = "" := by simp [nftAddress, h1, AlchemyNft.empty]
  have ha2 : nftAddress l2 = "" := by simp [nftAddress, h2, AlchemyNft.empty]
  have hkey : recordKey l1 = recordKey l2 := by
    simp [recordKey, ha1, ha2, posTokenId, ht]
  refine ⟨by simp [recordKey, ha1], hkey, ?_⟩
  have hmatch : matchKey (recordKey l2) (createRow l1) = true := by
    simp [matchKey, rowKey_createRow, hkey]
  have hcond : rowKey (createRow l1) = recordKey l2 := by rw [rowKey_createRow, hkey]
  have e1 : upsertOne [] l1 = [createRow l1] := by simp [upsertOne]
  have e2 : upsertOne [createRow l1] l2 = [applyUpdate (createRow l1) l2] := by
    simp [upsertOne, hmatch, hcond]
  calc upsertLiquidations [] [l1, l2] = upsertOne (upsertOne [] l1) l2 := rfl
    _ = [applyUpdate (createRow l1) l2] := by rw [e1, e2]
    _ = [createRow l2] := by
        rw [applyUpdate_eq_createRow _ _ (by rw [rowKey_createRow, hkey])]

/-- C1: when the aggregation succeeds, the positions of the returned records
are exactly the fetched positions for which `checkLiquidatableStatus`
returned `true`, in fetch order — so a position whose check returned `false`
is neither in the result nor among the records the handler passes to
`upsertLiquidations` (which receives precisely the result list). -/
theorem aggregator_keeps_exactly_liquidatable (env : ContractEnv)
    (g : GraphResponse) (n : NftResponse) (db : List LiquidationRow)
    (ps : List Position) (res : List AuctionRecord)
    (hps : fetchGraphQLPositions g = .ok ps)
    (hres : getAllLiquidatable env g n = .ok res) :
    res.map AuctionRecord.position =
      ps.filter (fun p => checkLiquidatableStatus env p) ∧
    (GET env g n db).persisted = some res := by
  refine ⟨?_, by simp [GET, hres]⟩
  unfold getAllLiquidatable at hres
  simp only [hps] at hres
  cases hn : fetchNFTData n with
  | error e => simp [hn] at hres
  | ok nfts =>
    simp only [hn] at hres
    simpa using liquidatableLoop_map_position env nfts ps [] res hres

/-- Witness for C1 on the concrete scenario. -/
theorem aggregator_keeps_exactly_liquidatable_witness :
    [recS].map AuctionRecord.position =
      [positionS].filter (fun p => checkLiquidatableStatus envS p) ∧
    (GET envS gS nS []).persisted = some [recS] :=
  aggregator_keeps_exactly_liquidatable envS gS nS [] [positionS] [recS]
    (by decide) scenario_agg

/-- C5: every returned record joins NFT metadata by exact string equality of
token ids, taking the first matching record in list order; when nothing
matches, `nftData` is the empty placeholder object (never `null`, never
omitted: the field always carries an `AlchemyNft` value). -/
theorem nft_join_first_match_or_empty (env : ContractEnv) (g : GraphResponse)
    (n : NftResponse) (nfts : List AlchemyNft) (res : List AuctionRecord)
    (hn : fetchNFTData n = .ok nfts)
    (hres : getAllLiquidatable env g n = .ok res) :
    ∀ r ∈ res,
      (∃ pre post, nfts = pre ++ r.nftData :: post ∧
        r.nftData.tokenId = r.position.tokenId ∧
        ∀ nft ∈ pre, nft.tokenId ≠ r.position.tokenId) ∨
      ((∀ nft ∈ nfts, nft.tokenId ≠ r.position.tokenId) ∧
        r.nftData = AlchemyNft.empty) := by
  intro r hr
  have hchar : r.nftData =
      (nfts.find? (fun nft => decide (nft.tokenId = r.position.tokenId))).getD
        AlchemyNft.empty := by
    unfold getAllLiquidatable at hres
    cases hg : fetchGraphQLPositions g with
    | error e => simp [hg] at hres
    | ok ps =>
      simp only [hg, hn] at hres
      exact liquidatableLoop_nftData env nfts ps [] res hres (by simp) r hr
  cases hf : nfts.find? (fun nft => decide (nft.tokenId = r.position.tokenId)) with
  | none =>
    right
    refine ⟨?_, by rw [hchar, hf]; rfl⟩
    intro nft hnft
    simpa using List.find?_eq_none.mp hf nft hnft
  | some a =>
    left
    obtain ⟨pre, post, heq, hpa, hpre⟩ := find?_eq_some_split _ _ _ hf
    have ha : r.nftData = a := by rw [hchar, hf]; rfl
    exact ⟨pre, post, by rw [ha]; exact heq, by rw [ha]; simpa using hpa,
      fun nft hm => by simpa using hpre nft hm⟩

/-- Witness for C5 on the concrete scenario record. -/
theorem nft_join_first_match_or_empty_witness :
    (∃ pre post, [nftS] = pre ++ recS.nftData :: post ∧
      recS.nftData.tokenId = recS.position.tokenId ∧
      ∀ nft ∈ pre, nft.tokenId ≠ recS.position.tokenId) ∨
    ((∀ nft ∈ [nftS], nft.tokenId ≠ recS.position.tokenId) ∧
      recS.nftData = AlchemyNft.empty) :=
  nft_join_first_match_or_empty envS gS nS [nftS] [recS] (by decide)
    scenario_agg recS (by simp)

/-- C7: when the GraphQL transport answers with a non-success status, the
handler responds 500 with an `error` field (and the thrown message as
`details`), the database is untouched, and `upsertLiquidations` is never
invoked. -/
theorem get_graphql_failure (env : ContractEnv) (g : GraphResponse)
    (n : NftResponse) (db : List LiquidationRow) (h : g.ok = false) :
    (GET env g n db).response.status = 500 ∧
    (GET env g n db).response.body =
      .failure "Failed to fetch positions"
        ("GraphQL request failed with status " ++ toString g.status) ∧
    (GET env g n db).persisted = none ∧
    (GET env g n db).db = db := by
  have hg : fetchGraphQLPositions g =
      .error { message := some ("GraphQL request failed with status " ++
        toString g.status) } := by
    simp [fetchGraphQLPositions, h]
  have hagg : getAllLiquidatable env g n =
      .error { message := some ("GraphQL request failed with status " ++
        toString g.status) } := by
    unfold getAllLiquidatable
    rw [hg]
  simp [GET, hagg]

/-- Witness for C7: an HTTP 503 from the indexer. -/
theorem get_graphql_failure_witness :
    (GET envS g503 nS []).response.status = 500 ∧
    (GET envS g503 nS []).response.body =
      .failure "Failed to fetch positions"
        ("GraphQL request failed with status " ++ toString g503.status) ∧
    (GET envS g503 nS []).persisted = none ∧
    (GET envS g503 nS []).db = [] :=
  get_graphql_failure envS g503 nS [] rfl

/-- C6: persistence is keyed by `(addressIP, tokenId)`. Running the
aggregation-plus-persistence pipeline twice with identical inputs over a
constraint-satisfying initial table leaves the table constraint-satisfying
with exactly one row per produced key; the key already exists after the
first run (so the second run updates rather than inserts), and the row
finally stored under a record's key holds exactly the values written for
the last produced record with that key — the second run's values. -/
theorem pipeline_twice_one_row_per_key (env : ContractEnv) (g : GraphResponse)
    (n : NftResponse) (db0 : List LiquidationRow) (res : List AuctionRecord)
    (liq : AuctionRecord) (h0 : KeyUnique db0)
    (hres : getAllLiquidatable env g n = .ok res) (hmem : liq ∈ res) :
    KeyUnique (GET env g n (GET env g n db0).db).db ∧
    countKey (GET env g n (GET env g n db0).db).db (recordKey liq) = 1 ∧
    (findRow (GET env g n db0).db (recordKey liq)).isSome = true ∧
    ∃ last, res.reverse.find? (fun l => decide (recordKey l = recordKey liq)) =
        some last ∧
      findRow (GET env g n (GET env g n db0).db).db (recordKey liq) =
        some (createRow last) := by
  have hdb1 : (GET env g n db0).db = upsertLiquidations db0 res := by
    simp [GET, hres]
  have hdb2 : (GET env g n (GET env g n db0).db).db =
      upsertLiquidations (upsertLiquidations db0 res) res := by
    simp [GET, hres, hdb1]
  have hu1 : KeyUnique (upsertLiquidations db0 res) :=
    keyUnique_upsertLiquidations db0 res h0
  have hfind : ∃ last,
      res.reverse.find? (fun l => decide (recordKey l = recordKey liq)) =
        some last := by
    cases hf : res.reverse.find? (fun l => decide (recordKey l = recordKey liq)) with
    | some last => exact ⟨last, rfl⟩
    | none =>
      have := List.find?_eq_none.mp hf liq (List.mem_reverse.mpr hmem)
      simp at this
  obtain ⟨last, hlast⟩ := hfind
  refine ⟨?_, ?_, ?_, last, hlast, ?_⟩
  · rw [hdb2]
    exact keyUnique_upsertLiquidations _ _ hu1
  · rw [hdb2]
    exact countKey_upsert_mem res _ _ hu1 ⟨liq, hmem, rfl⟩
  · rw [hdb1, findRow_upsertLiquidations, hlast]
    rfl
  · rw [hdb2, findRow_upsertLiquidations, hlast]

/-- Witness for C6 on the concrete scenario, starting from an empty table. -/
theorem pipeline_twice_one_row_per_key_witness :
    KeyUnique (GET envS gS nS (GET envS gS nS []).db).db ∧
    countKey (GET envS gS nS (GET envS gS nS []).db).db (recordKey recS) = 1 ∧
    (findRow (GET envS gS nS []).db (recordKey recS)).isSome = true ∧
    ∃ last, [recS].reverse.find? (fun l => decide (recordKey l = recordKey recS)) =
        some last ∧
      findRow (GET envS gS nS (GET envS gS nS []).db).db (recordKey recS) =
        some (createRow last) :=
  pipeline_twice_one_row_per_key envS gS nS [] [recS] recS
    (by simp [KeyUnique]) scenario_agg (by simp)

/-- A first record carrying the empty NFT placeholder. -/
def recE1 : AuctionRecord :=
  { nftData := AlchemyNft.empty
    isLiquidatableStatus := true
    position := { id := some "0xaaa-9", tokenId := some "9",
                  account := some { id := "0xu1" }, bidder := none,
                  borrowShares := 1, pool := poolS }
    floorPrice := "10"
    debt := "1" }

/-- A second record with the empty NFT placeholder and the same token id. -/
def recE2 : AuctionRecord :=
  { nftData := AlchemyNft.empty
    isLiquidatableStatus := true
    position := { id := some "0xbbb-9", tokenId := some "9",
                  account := some { id := "0xu2" }, bidder := some "0xbid",
                  borrowShares := 2, pool := poolS }
    floorPrice := "20"
    debt := "2" }

/-- Witness for C10: two distinct placeholder records sharing token id "9"
collapse onto the single row keyed `("", "9")`. -/
theorem empty_nft_same_row_witness :
    (recordKey recE1).1 = "" ∧ recordKey recE1 = recordKey recE2 ∧
    upsertLiquidations [] [recE1, recE2] = [createRow recE2] :=
  empty_nft_same_row recE1 recE2 rfl rfl rfl

/-- C8: on the concrete scenario (one position `"0xabc-7"`, 50 borrow shares
of 100 total against 1000 total borrow assets, check `true`, oracle price
250, one NFT record for token `"7"` at contract `"0xNFT"`), the aggregator
returns the single expected record with `debt = "500"` and
`floorPrice = "250"`, and the handler persists it as the row keyed
`("0xNFT", "7")`. -/
theorem end_to_end_scenario :
    getAllLiquidatable envS gS nS = .ok [recS] ∧
    recS.debt = "500" ∧ recS.floorPrice = "250" ∧
    (GET envS gS nS []).db = [createRow recS] ∧
    rowKey (createRow recS) = ("0xNFT", "7") := by
  refine ⟨scenario_agg, rfl, rfl, ?_, by decide⟩
  simp only [GET, scenario_agg]
  decide

end Artha
